import Mathlib

/-!
Shallow embedding of `index.ts` of kd-exsample-backend: an Express service
exposing a blob store (`POST /upload`, `GET /file/:fileId`) backed by the
directory `__dirname/../file`, and a document ("canvas") store
(`POST /canvas`, `GET /canvas`, `GET /canvas/:id`) backed by
`__dirname/../canvas`.

Modelling conventions:
- JS strings are Lean `String`s; JS string operations (`startsWith`,
  `endsWith`) are modelled on the underlying character lists.
- JS objects (request bodies and stored documents) are ordered association
  lists `Obj := List (String × JVal)`; the object-literal spread
  `{id: canvasId, ...canvasData, createAt: t}` is modelled by in-place
  updating insertion, exactly mirroring JS property-assignment order.
  Values are modelled atomically (null, boolean, integer, string); no claim
  inspects nested structure.
- The filesystem is explicit state: a set of existing directories plus an
  ordered list of (absolute path, content) files.  Directory listing order
  is the order of the list, modelling the unspecified `readdir` order.
- `JSON.stringify`/`JSON.parse` are modelled by a `Content` type in which
  `Content.json o` is the canonical serialization of the object `o`;
  parsing any other content fails, modelling a thrown parse error.
- Node `path.join` / `path.extname` / `path.parse(..).name` are external
  library calls; they are modelled from Node's documented posix semantics
  (segment normalization with `..` popping; extension from the last dot of
  the final component, empty for dotfiles and for the component `..`).
-/

/-- Atomic JSON-compatible values occurring in documents. -/
inductive JVal where
  | null : JVal
  | bool (b : Bool) : JVal
  | num (n : Int) : JVal
  | str (s : String) : JVal
deriving DecidableEq

/-- A JS object: an ordered association list of fields. -/
abbrev Obj := List (String × JVal)

/-- Property lookup `o[k]`; `none` models `undefined`. -/
def objGet (o : Obj) (k : String) : Option JVal :=
  (o.find? (fun p => p.1 = k)).map (fun p => p.2)

/-- JS property assignment `o[k] = v`: updates the value in place if the key
exists (keeping its position), otherwise appends the field at the end. -/
def objInsert (o : Obj) (k : String) (v : JVal) : Obj :=
  if o.any (fun p => p.1 = k) then
    o.map (fun p => if p.1 = k then (k, v) else p)
  else o ++ [(k, v)]

/-- Object spread `{...base, ...ext}`: assigns each field of `ext` into
`base` in order. -/
def objSpread (base ext : Obj) : Obj :=
  ext.foldl (fun acc p => objInsert acc p.1 p.2) base

/-- The object built by `POST /canvas`:
`{ id: canvasId, ...canvasData, createAt: new Date().toISOString() }`.
The `id` field is assigned first, then the caller fields are spread over it,
then `createAt` is assigned last. -/
def newCanvasObj (canvasId now : String) (body : Obj) : Obj :=
  objInsert (objSpread [("id", JVal.str canvasId)] body) "createAt" (JVal.str now)

/-- Contents of a file on disk.  `json o` is the canonical
`JSON.stringify` image of the object `o`; `raw` is an uploaded byte blob;
`text` is arbitrary non-JSON text. -/
inductive Content where
  | json (o : Obj) : Content
  | raw (bytes : List Nat) : Content
  | text (s : String) : Content
deriving DecidableEq

/-- Model of `JSON.parse`: succeeds exactly on canonically serialized
objects, throws (returns an error) on any other content. -/
def jsonParse : Content → Except String Obj
  | Content.json o => Except.ok o
  | Content.raw _ => Except.error "Unexpected token"
  | Content.text _ => Except.error "Unexpected token"

/-- JS `s.startsWith(pre)`. -/
def jsStartsWith (s pre : String) : Bool :=
  pre.data.isPrefixOf s.data

/-- JS `s.endsWith(suf)`. -/
def jsEndsWith (s suf : String) : Bool :=
  suf.data.isSuffixOf s.data

/-- An absolute filesystem path as a list of segments. -/
abbrev FPath := List String

/-- Splits a string into segments at each `/` character. -/
def splitSegsAux : List Char → List Char → List String
  | [], acc => [⟨acc.reverse⟩]
  | c :: cs, acc =>
      if c = '/' then ⟨acc.reverse⟩ :: splitSegsAux cs []
      else splitSegsAux cs (c :: acc)

/-- Splits a relative path string on `/`. -/
def splitSegs (s : String) : List String :=
  splitSegsAux s.data []

/-- Posix path normalization on an absolute segment list, as performed by
Node `path.join`: empty and `.` segments vanish, `..` pops the previous
segment (or vanishes at the root). -/
def normSegs (segs : List String) : FPath :=
  segs.foldl
    (fun acc seg =>
      if seg = "" ∨ seg = "." then acc
      else if seg = ".." then acc.dropLast
      else acc ++ [seg])
    []

/-- Node `path.join(base, rel)` for an absolute `base`: concatenate and
normalize. -/
def joinPath (base : FPath) (rel : String) : FPath :=
  normSegs (base ++ splitSegs rel)

/-- The module directory `__dirname` of the compiled service. -/
def appDirname : FPath := ["srv", "app"]

/-- Upload directory: `path.join(__dirname, '../file')`. -/
def fileDir : FPath := joinPath appDirname "../file"

/-- Canvas directory: `path.join(__dirname, '../canvas')`. -/
def canvasDir : FPath := joinPath appDirname "../canvas"

/-- The final path component: trailing slashes are trimmed, then the
characters after the last remaining slash are kept. -/
def lastComponent (s : List Char) : List Char :=
  (((s.reverse.dropWhile (fun c => c = '/')).takeWhile (fun c => c ≠ '/'))).reverse

/-- Suffix of `b` from its last `.` (inclusive); empty if `b` has no dot. -/
def extAfterLastDot (b : List Char) : List Char :=
  if '.' ∈ b then ((b.reverse.takeWhile (fun c => c ≠ '.')) ++ ['.']).reverse
  else []

/-- Node posix `path.extname`: the extension of the final path component,
from its last `.` to the end; empty when the component has no dot, when its
only dot is its first character (dotfiles such as `.bashrc`), and for the
component `..`. -/
def extnameChars (s : List Char) : List Char :=
  let b := lastComponent s
  if b = ['.', '.'] then []
  else
    let e := extAfterLastDot b
    if e.length = b.length then [] else e

/-- Node `path.extname` on strings. -/
def extname (s : String) : String :=
  ⟨extnameChars s.data⟩

/-- Node `path.parse(s).name`: the final component with its extension
removed. -/
def pathParseName (s : String) : String :=
  let b := lastComponent s.data
  ⟨b.take (b.length - (extnameChars b).length)⟩

/-- Filesystem state: the set of existing directories and the files, in
directory-listing order. -/
structure FS where
  dirs : List FPath
  files : List (FPath × Content)
deriving DecidableEq

/-- Does a directory exist (`fs.existsSync` on a directory path)? -/
def dirExists (fs : FS) (d : FPath) : Bool :=
  fs.dirs.contains d

/-- Creates a directory (`fs.mkdirSync(d, { recursive: true })`). -/
def mkdir (fs : FS) (d : FPath) : FS :=
  FS.mk (fs.dirs ++ [d]) fs.files

/-- Does a file exist at this exact path (`fs.existsSync` on a file)? -/
def existsFile (fs : FS) (p : FPath) : Bool :=
  fs.files.any (fun q => q.1 = p)

/-- Reads the file at `p`, if any (`fs.readFileSync`). -/
def readFile (fs : FS) (p : FPath) : Option Content :=
  (fs.files.find? (fun q => q.1 = p)).map (fun q => q.2)

/-- Writes `c` at `p` (`fs.writeFileSync`): replaces the content in place if
the path exists, otherwise appends the new file at the end of the listing. -/
def writeFile (fs : FS) (p : FPath) (c : Content) : FS :=
  if fs.files.any (fun q => q.1 = p) then
    FS.mk fs.dirs (fs.files.map (fun q => if q.1 = p then (p, c) else q))
  else FS.mk fs.dirs (fs.files ++ [(p, c)])

/-- Directory listing (`fs.readdirSync dir` / `fs.readdir`): the names of
the files whose parent is `dir`, in listing order. -/
def readdirNames (fs : FS) (dir : FPath) : List String :=
  fs.files.filterMap (fun q => if q.1.dropLast = dir then q.1.getLast? else none)

/-- The state after startup: both storage directories exist and no entry has
been written yet. -/
def fs0 : FS := FS.mk [fileDir, canvasDir] []

/-- HTTP responses produced by the handlers. -/
inductive Resp where
  | ok (body : Obj) : Resp
  | created (body : Obj) : Resp
  | okArr (body : List Obj) : Resp
  | file (c : Content) : Resp
  | badRequest (msg : String) : Resp
  | notFound (msg : String) : Resp
  | serverError (msg : String) : Resp
deriving DecidableEq

/-- `POST /upload` together with multer disk storage: the stored filename is
a fresh identifier plus `path.extname(file.originalname)`; the response
carries `path.parse(filename).name` as `fileId`.  The fresh identifier is an
explicit argument, modelling `uuidv4()`. -/
def uploadFile (fs : FS) (freshId : String) (originalname : String)
    (content : Content) : FS × Resp :=
  let filename := freshId ++ extname originalname
  let fs1 := writeFile fs (joinPath fileDir filename) content
  (fs1, Resp.ok [("fileId", JVal.str (pathParseName filename)),
                 ("message", JVal.str "upload ok")])

/-- `GET /file/:fileId`: `fs.readdir(fileDir)` (an error gives 500), then
the first listed file whose name starts with `fileId` is sent; 404 when none
matches. -/
def getFile (fs : FS) (fileId : String) : Resp :=
  if dirExists fs fileDir then
    match (readdirNames fs fileDir).find? (fun f => jsStartsWith f fileId) with
    | none => Resp.notFound "file not found"
    | some name =>
        match readFile fs (joinPath fileDir name) with
        | some c => Resp.file c
        | none => Resp.serverError "read failed"
  else Resp.serverError "server error"

/-- `POST /canvas`: builds `newCanvasObj`, writes it to
`path.join(canvasDir, canvasId + ".json")`, responds 201 with the stored
structure.  The fresh identifier and the current timestamp are explicit
arguments, modelling `uuidv4()` and `new Date().toISOString()`. -/
def postCanvas (fs : FS) (canvasId now : String) (body : Obj) : FS × Resp :=
  let nc := newCanvasObj canvasId now body
  let fp := joinPath canvasDir (canvasId ++ ".json")
  (writeFile fs fp (Content.json nc), Resp.created nc)

/-- JS `ToNumber` on a property-access result, restricted to the value
shapes occurring here; `none` models `NaN` (in particular `undefined`
coerces to `NaN`, and non-numeric strings such as ISO timestamps coerce to
`NaN`). -/
def toNumber : Option JVal → Option Int
  | none => none
  | some JVal.null => some 0
  | some (JVal.bool b) => some (if b then 1 else 0)
  | some (JVal.num n) => some n
  | some (JVal.str s) =>
      if s = "" then some 0
      else match s.toNat? with
        | some n => some (Int.ofNat n)
        | none => none

/-- The sort comparator `(a, b) => b.createDate - a.createDate`; `none`
models a `NaN` result. -/
def createDateCmp (a b : Obj) : Option Int :=
  match toNumber (objGet b "createDate"), toNumber (objGet a "createDate") with
  | some x, some y => some (x - y)
  | _, _ => none

/-- "`a` need not move after `b`" for `Array.prototype.sort`: a comparator
result that is negative, zero, or `NaN` (ECMAScript SortCompare maps `NaN`
to `+0`). -/
def sortKeyLe (a b : Obj) : Bool :=
  match createDateCmp a b with
  | none => true
  | some v => decide (v ≤ 0)

/-- Stable insertion used to model the (stable) `Array.prototype.sort`. -/
def insertSorted (le : Obj → Obj → Bool) (x : Obj) : List Obj → List Obj
  | [] => [x]
  | y :: ys => if le x y then x :: y :: ys else y :: insertSorted le x ys

/-- Stable sort modelling `Array.prototype.sort(cmp)`: ECMAScript requires
stability, and for a consistent comparator the stable-sorted result is
unique, so any stable sort is a faithful model. -/
def jsSortBy (le : Obj → Obj → Bool) : List Obj → List Obj
  | [] => []
  | x :: xs => insertSorted le x (jsSortBy le xs)

/-- Reads and parses one canvas entry (`readFileSync` then `JSON.parse`);
either step throwing is an error. -/
def readAndParse (fs : FS) (name : String) : Except String Obj :=
  match readFile fs (joinPath canvasDir name) with
  | none => Except.error "ENOENT"
  | some c => jsonParse c

/-- The `files.map(...)` loop of `GET /canvas`: entries are read and parsed
left to right; the first thrown error aborts the whole loop. -/
def mapParseAll (fs : FS) : List String → Except String (List Obj)
  | [] => Except.ok []
  | n :: ns =>
      match readAndParse fs n with
      | Except.error e => Except.error e
      | Except.ok o =>
          match mapParseAll fs ns with
          | Except.error e => Except.error e
          | Except.ok os => Except.ok (o :: os)

/-- `GET /canvas`: when the canvas directory is missing it is created and
`[]` is returned; otherwise every `*.json` entry is read and parsed (any
failure is caught and answered with 500), and the parsed documents are
sorted with the `createDate` comparator. -/
def getCanvas (fs : FS) : FS × Resp :=
  if dirExists fs canvasDir then
    match mapParseAll fs
        ((readdirNames fs canvasDir).filter (fun f => jsEndsWith f ".json")) with
    | Except.error e => (fs, Resp.serverError e)
    | Except.ok cs => (fs, Resp.okArr (jsSortBy sortKeyLe cs))
  else (mkdir fs canvasDir, Resp.okArr [])

/-- `GET /canvas/:id`: reads `path.join(canvasDir, id + ".json")`; 404 when
`existsSync` is false, otherwise the file is read and parsed, a parse error
being caught and answered with 500. -/
def getCanvasById (fs : FS) (id : String) : Resp :=
  let fp := joinPath canvasDir (id ++ ".json")
  if existsFile fs fp then
    match readFile fs fp with
    | some c =>
        match jsonParse c with
        | Except.ok o => Resp.ok o
        | Except.error e => Resp.serverError e
    | none => Resp.serverError "read failed"
  else Resp.notFound "canvas not found"

/-- A state-changing request: a blob upload or a canvas creation, with the
generated identifier (and timestamp) made explicit. -/
inductive Op where
  | put (freshId : String) (originalname : String) (content : Content) : Op
  | create (canvasId : String) (now : String) (body : Obj) : Op
deriving DecidableEq

/-- The identifier generated for an operation. -/
def opId : Op → String
  | Op.put i _ _ => i
  | Op.create i _ _ => i

/-- Applies the state effect of one request. -/
def applyOp (fs : FS) : Op → FS
  | Op.put i orig c => (uploadFile fs i orig c).1
  | Op.create i now body => (postCanvas fs i now body).1

/-- Runs a sequence of requests. -/
def runOps (fs : FS) (ops : List Op) : FS :=
  ops.foldl applyOp fs

/-- The disk entry an operation produces: blob uploads land in `fileDir`
under the identifier plus the preserved extension, canvas creations land in
`canvasDir` under the identifier plus `.json`. -/
def opEntry : Op → FPath × Content
  | Op.put i orig c => (fileDir ++ [i ++ extname orig], c)
  | Op.create i now body =>
      (canvasDir ++ [i ++ ".json"], Content.json (newCanvasObj i now body))

/-- A well-formed generated identifier: nonempty, with no path separator and
no dot.  Every `uuidv4()` value satisfies this. -/
def PlainId (s : String) : Prop :=
  s ≠ "" ∧ '/' ∉ s.data ∧ '.' ∉ s.data

instance : DecidablePred PlainId := fun s => by
  unfold PlainId; infer_instance

/-- Modelled from the spec: the extension rule the spec states for uploads,
"the substring of `name` from its last `.` (inclusive); empty when `name`
has no `.`" — stated directly on the whole name via the index of its last
dot, independently of Node's component and dotfile rules. -/
def specLastDotExt (s : List Char) : List Char :=
  if '.' ∈ s then
    s.drop (s.length - 1 - (s.reverse.takeWhile (fun c => c ≠ '.')).length)
  else []


/-! ### Object-merge lemmas -/

theorem objGet_insert_self (o : Obj) (k : String) (v : JVal) :
    objGet (objInsert o k v) k = some v := by
  unfold objInsert objGet
  by_cases h : (o.any (fun p => p.1 = k)) = true
  · simp only [h, if_true, List.find?_map]
    have hpred : ((fun p : String × JVal => decide (p.1 = k)) ∘
        (fun p : String × JVal => if p.1 = k then (k, v) else p)) =
        (fun p : String × JVal => decide (p.1 = k)) := by
      funext p
      by_cases hp : p.1 = k <;> simp [Function.comp, hp]
    rw [hpred]
    have hsome : (o.find? (fun p : String × JVal => decide (p.1 = k))).isSome := by
      rw [List.find?_isSome]
      simpa using h
    obtain ⟨q, hq⟩ := Option.isSome_iff_exists.mp hsome
    have hq1 : q.1 = k := by simpa using List.find?_some hq
    simp [hq, hq1]
  · simp only [Bool.not_eq_true] at h
    simp only [h, Bool.false_eq_true, if_false, List.find?_append]
    have hnone : o.find? (fun p : String × JVal => decide (p.1 = k)) = none := by
      rw [List.find?_eq_none]
      intro p hp
      simp only [decide_eq_true_eq]
      intro hpk
      have : (o.any (fun p => p.1 = k)) = true :=
        List.any_eq_true.mpr ⟨p, hp, by simpa using hpk⟩
      rw [h] at this
      exact Bool.false_ne_true this
    simp [hnone]

theorem objGet_insert_other (o : Obj) (k k2 : String) (v : JVal) (hk : k2 ≠ k) :
    objGet (objInsert o k v) k2 = objGet o k2 := by
  unfold objInsert objGet
  by_cases h : (o.any (fun p => p.1 = k)) = true
  · simp only [h, if_true, List.find?_map]
    have hpred : ((fun p : String × JVal => decide (p.1 = k2)) ∘
        (fun p : String × JVal => if p.1 = k then (k, v) else p)) =
        (fun p : String × JVal => decide (p.1 = k2)) := by
      funext p
      by_cases hp : p.1 = k
      · simp [Function.comp, hp, Ne.symm hk]
      · simp [Function.comp, hp]
    rw [hpred]
    cases hfind : o.find? (fun p : String × JVal => decide (p.1 = k2)) with
    | none => simp
    | some q =>
      have hq1 : q.1 = k2 := by simpa using List.find?_some hfind
      have hqk : ¬ q.1 = k := by rw [hq1]; exact hk
      simp [hqk]
  · simp only [Bool.not_eq_true] at h
    simp only [h, Bool.false_eq_true, if_false, List.find?_append]
    have hone : (([((k, v) : String × JVal)]).find?
        (fun p : String × JVal => decide (p.1 = k2))) = none := by
      simp [Ne.symm hk]
    rw [hone]
    simp

theorem objGet_spread_of_none (ext : Obj) (init : Obj) (k : String)
    (h : objGet ext k = none) : objGet (objSpread init ext) k = objGet init k := by
  induction ext generalizing init with
  | nil => rfl
  | cons q rest ih =>
    have hq : ¬ q.1 = k := by
      intro hqk
      unfold objGet at h
      rw [List.find?_cons_of_pos _ (by simpa using hqk)] at h
      simp at h
    have hrest : objGet rest k = none := by
      unfold objGet at h ⊢
      rw [List.find?_cons_of_neg _ (by simpa using hq)] at h
      exact h
    show objGet (objSpread (objInsert init q.1 q.2) rest) k = _
    rw [ih _ hrest, objGet_insert_other _ _ _ _ (fun he => hq he.symm)]

theorem objGet_spread_of_some (ext : Obj) (init : Obj) (k : String) (v : JVal)
    (hnd : (ext.map Prod.fst).Nodup)
    (h : objGet ext k = some v) : objGet (objSpread init ext) k = some v := by
  induction ext generalizing init with
  | nil => simp [objGet] at h
  | cons q rest ih =>
    rw [List.map_cons, List.nodup_cons] at hnd
    by_cases hq : q.1 = k
    · have hv : q.2 = v := by
        unfold objGet at h
        rw [List.find?_cons_of_pos _ (by simpa using hq)] at h
        simpa using h
      have hrest : objGet rest k = none := by
        have hfind : rest.find? (fun p : String × JVal => decide (p.1 = k)) = none := by
          rw [List.find?_eq_none]
          intro p hp
          simp only [decide_eq_true_eq]
          intro hpk
          exact hnd.1 (hq ▸ hpk ▸ List.mem_map_of_mem Prod.fst hp)
        simp [objGet, hfind]
      show objGet (objSpread (objInsert init q.1 q.2) rest) k = _
      rw [objGet_spread_of_none rest _ k hrest, hq, hv, objGet_insert_self]
    · have hrest : objGet rest k = some v := by
        unfold objGet at h ⊢
        rw [List.find?_cons_of_neg _ (by simpa using hq)] at h
        exact h
      exact ih _ hnd.2 hrest

/-- Field lookup in the object `POST /canvas` builds: `createAt` is always
the system timestamp. -/
theorem newCanvasObj_createAt (cid now : String) (body : Obj) :
    objGet (newCanvasObj cid now body) "createAt" = some (JVal.str now) := by
  unfold newCanvasObj
  exact objGet_insert_self _ _ _

/-- Field lookup in the object `POST /canvas` builds: when the caller sent no
`id` field, the `id` field is the generated identifier. -/
theorem newCanvasObj_id (cid now : String) (body : Obj)
    (h : objGet body "id" = none) :
    objGet (newCanvasObj cid now body) "id" = some (JVal.str cid) := by
  unfold newCanvasObj
  rw [objGet_insert_other _ _ _ _ (by decide), objGet_spread_of_none _ _ _ h]
  rfl

/-- Field lookup in the object `POST /canvas` builds: every caller field
other than `createAt` is kept with its value (the caller's keys being unique,
as JS object keys are). -/
theorem newCanvasObj_keeps (cid now : String) (body : Obj) (k : String) (v : JVal)
    (hnd : (body.map Prod.fst).Nodup)
    (hk : k ≠ "createAt") (h : objGet body k = some v) :
    objGet (newCanvasObj cid now body) k = some v := by
  unfold newCanvasObj
  rw [objGet_insert_other _ _ _ _ hk]
  exact objGet_spread_of_some _ _ _ _ hnd h

/-! ### Filesystem lemmas -/

theorem writeFile_dirs (fs : FS) (p : FPath) (c : Content) :
    (writeFile fs p c).dirs = fs.dirs := by
  unfold writeFile
  by_cases h : (fs.files.any (fun q => q.1 = p)) = true
  · simp [h]
  · simp only [Bool.not_eq_true] at h
    simp [h]

theorem readFile_writeFile_self (fs : FS) (p : FPath) (c : Content) :
    readFile (writeFile fs p c) p = some c := by
  unfold writeFile readFile
  by_cases h : (fs.files.any (fun q => q.1 = p)) = true
  · simp only [h, if_true, List.find?_map]
    have hpred : ((fun q : FPath × Content => decide (q.1 = p)) ∘
        (fun q : FPath × Content => if q.1 = p then (p, c) else q)) =
        (fun q : FPath × Content => decide (q.1 = p)) := by
      funext q
      by_cases hq : q.1 = p <;> simp [Function.comp, hq]
    rw [hpred]
    have hsome : (fs.files.find? (fun q : FPath × Content => decide (q.1 = p))).isSome := by
      rw [List.find?_isSome]
      exact List.any_eq_true.mp h
    obtain ⟨q, hq⟩ := Option.isSome_iff_exists.mp hsome
    have hq1 : q.1 = p := by simpa using List.find?_some hq
    simp [hq, hq1]
  · simp only [Bool.not_eq_true] at h
    simp only [h, Bool.false_eq_true, if_false, List.find?_append]
    have hnone : fs.files.find? (fun q : FPath × Content => decide (q.1 = p)) = none := by
      rw [List.find?_eq_none]
      intro q hq
      simp only [decide_eq_true_eq]
      intro hqp
      have : (fs.files.any (fun q => q.1 = p)) = true :=
        List.any_eq_true.mpr ⟨q, hq, by simpa using hqp⟩
      rw [h] at this
      exact Bool.false_ne_true this
    simp [hnone]

theorem existsFile_of_readFile (fs : FS) (p : FPath) (c : Content)
    (h : readFile fs p = some c) : existsFile fs p = true := by
  unfold readFile at h
  rw [Option.map_eq_some'] at h
  obtain ⟨r, hfind, _⟩ := h
  unfold existsFile
  rw [List.any_eq_true]
  have hr := List.find?_some hfind
  exact ⟨r, List.mem_of_find?_eq_some hfind, by simpa using hr⟩

theorem existsFile_writeFile_self (fs : FS) (p : FPath) (c : Content) :
    existsFile (writeFile fs p c) p = true :=
  existsFile_of_readFile _ _ _ (readFile_writeFile_self fs p c)

theorem writeFile_fresh_files (fs : FS) (p : FPath) (c : Content)
    (h : existsFile fs p = false) :
    (writeFile fs p c).files = fs.files ++ [(p, c)] := by
  unfold existsFile at h
  unfold writeFile
  simp [h]

theorem readdirNames_append_file (fs : FS) (dir : FPath) (name : String)
    (c : Content) :
    readdirNames (FS.mk fs.dirs (fs.files ++ [(dir ++ [name], c)])) dir =
      readdirNames fs dir ++ [name] := by
  unfold readdirNames
  rw [List.filterMap_append]
  congr 1
  simp [List.dropLast_concat, List.getLast?_concat]

/-! ### Path lemmas -/

theorem splitSegsAux_noSlash (l : List Char) (acc : List Char)
    (h : '/' ∉ l) : splitSegsAux l acc = [⟨acc.reverse ++ l⟩] := by
  induction l generalizing acc with
  | nil => simp [splitSegsAux]
  | cons c cs ih =>
    have hc : ¬ c = '/' := fun he => h (he ▸ List.mem_cons_self c cs)
    rw [splitSegsAux, if_neg hc, ih _ (fun hm => h (List.mem_cons_of_mem c hm))]
    simp

theorem splitSegs_noSlash (s : String) (h : '/' ∉ s.data) :
    splitSegs s = [s] := by
  unfold splitSegs
  rw [splitSegsAux_noSlash _ _ h]
  simp

/-- A string usable as a single, plain path segment. -/
def PlainSeg (s : String) : Prop :=
  '/' ∉ s.data ∧ s ≠ "" ∧ s ≠ "." ∧ s ≠ ".."

theorem normSegs_plain_append (base : FPath) (s : String)
    (hb : normSegs base = base)
    (h2 : s ≠ "") (h3 : s ≠ ".") (h4 : s ≠ "..") :
    normSegs (base ++ [s]) = base ++ [s] := by
  unfold normSegs at hb ⊢
  rw [List.foldl_append, hb]
  simp only [List.foldl]
  rw [if_neg (not_or.mpr ⟨h2, h3⟩), if_neg h4]

theorem joinPath_fileDir (s : String) (h : PlainSeg s) :
    joinPath fileDir s = fileDir ++ [s] := by
  obtain ⟨h1, h2, h3, h4⟩ := h
  unfold joinPath
  rw [splitSegs_noSlash s h1]
  exact normSegs_plain_append fileDir s (by decide) h2 h3 h4

theorem joinPath_canvasDir (s : String) (h : PlainSeg s) :
    joinPath canvasDir s = canvasDir ++ [s] := by
  obtain ⟨h1, h2, h3, h4⟩ := h
  unfold joinPath
  rw [splitSegs_noSlash s h1]
  exact normSegs_plain_append canvasDir s (by decide) h2 h3 h4

/-! ### Extension lemmas -/

theorem mem_takeWhile_prop {p : Char → Bool} :
    ∀ (l : List Char) (c : Char), c ∈ l.takeWhile p → p c = true := by
  intro l
  induction l with
  | nil => intro c hc; simp [List.takeWhile] at hc
  | cons a t ih =>
    intro c hc
    rw [List.takeWhile] at hc
    cases hpa : p a with
    | false => rw [hpa] at hc; simp at hc
    | true =>
      rw [hpa] at hc
      rcases List.mem_cons.mp hc with h | h
      · rw [h]; exact hpa
      · exact ih c h

theorem dropWhile_eq_self_of_all {p : Char → Bool} :
    ∀ (l : List Char), (∀ c ∈ l, p c = false) → l.dropWhile p = l := by
  intro l h
  cases l with
  | nil => rfl
  | cons a t =>
    rw [List.dropWhile]
    rw [h a (List.mem_cons_self a t)]

theorem takeWhile_eq_self_of_all {p : Char → Bool} :
    ∀ (l : List Char), (∀ c ∈ l, p c = true) → l.takeWhile p = l := by
  intro l
  induction l with
  | nil => intro _; rfl
  | cons a t ih =>
    intro h
    rw [List.takeWhile, h a (List.mem_cons_self a t),
      ih (fun c hc => h c (List.mem_cons_of_mem a hc))]

theorem takeWhile_append_stop {p : Char → Bool} :
    ∀ (xs : List Char) (y : Char) (ys : List Char),
      (∀ c ∈ xs, p c = true) → p y = false →
      ((xs ++ y :: ys).takeWhile p) = xs := by
  intro xs
  induction xs with
  | nil =>
    intro y ys _ hy
    rw [List.nil_append, List.takeWhile, hy]
  | cons a t ih =>
    intro y ys hall hy
    rw [List.cons_append, List.takeWhile, hall a (List.mem_cons_self a t),
      ih y ys (fun c hc => hall c (List.mem_cons_of_mem a hc)) hy]

theorem lastComponent_mem_ne_slash (s : List Char) (c : Char)
    (h : c ∈ lastComponent s) : c ≠ '/' := by
  unfold lastComponent at h
  rw [List.mem_reverse] at h
  have := mem_takeWhile_prop _ _ h
  simpa using this

theorem lastComponent_noSlash (s : List Char) (h : '/' ∉ s) :
    lastComponent s = s := by
  unfold lastComponent
  rw [dropWhile_eq_self_of_all _ (fun c hc => by
      simp only [decide_eq_false_iff_not]
      intro he
      exact h (he ▸ List.mem_reverse.mp hc)),
    takeWhile_eq_self_of_all _ (fun c hc => by
      simp only [decide_eq_true_eq]
      intro he
      exact h (he ▸ List.mem_reverse.mp hc)),
    List.reverse_reverse]

theorem exists_last_dot :
    ∀ (s : List Char), '.' ∈ s → ∃ a b, s = a ++ '.' :: b ∧ '.' ∉ b := by
  intro s
  induction s with
  | nil => intro h; cases h
  | cons c cs ih =>
    intro h
    by_cases hcs : '.' ∈ cs
    · obtain ⟨a, b, heq, hb⟩ := ih hcs
      exact ⟨c :: a, b, by rw [heq]; rfl, hb⟩
    · have hc : c = '.' := by
        rcases List.mem_cons.mp h with h1 | h1
        · exact h1.symm
        · exact absurd h1 hcs
      exact ⟨[], cs, by rw [hc]; rfl, hcs⟩

theorem reverse_append_dot (a b : List Char) :
    (a ++ '.' :: b).reverse = b.reverse ++ '.' :: a.reverse := by
  rw [List.reverse_append, List.reverse_cons, List.append_assoc,
    List.singleton_append]

theorem extAfterLastDot_decomp (a b : List Char) (hb : '.' ∉ b) :
    extAfterLastDot (a ++ '.' :: b) = '.' :: b := by
  unfold extAfterLastDot
  rw [if_pos (List.mem_append.mpr (Or.inr (List.mem_cons_self '.' b)))]
  rw [reverse_append_dot a b, takeWhile_append_stop _ '.' _
    (fun c hc => by
      simp only [decide_eq_true_eq]
      intro he
      exact hb (he ▸ List.mem_reverse.mp hc))
    (by simp)]
  rw [List.reverse_append, List.reverse_reverse]
  rfl

theorem specLastDotExt_decomp (a b : List Char) (hb : '.' ∉ b) :
    specLastDotExt (a ++ '.' :: b) = '.' :: b := by
  unfold specLastDotExt
  rw [if_pos (List.mem_append.mpr (Or.inr (List.mem_cons_self '.' b)))]
  rw [reverse_append_dot a b, takeWhile_append_stop _ '.' _
    (fun c hc => by
      simp only [decide_eq_true_eq]
      intro he
      exact hb (he ▸ List.mem_reverse.mp hc))
    (by simp)]
  have hlen : (a ++ '.' :: b).length - 1 - b.reverse.length = a.length := by
    rw [List.length_append, List.length_cons, List.length_reverse]
    omega
  rw [hlen]
  exact List.drop_left a ('.' :: b)

theorem extAfterLastDot_eq_spec (s : List Char) :
    extAfterLastDot s = specLastDotExt s := by
  by_cases h : '.' ∈ s
  · obtain ⟨a, b, heq, hb⟩ := exists_last_dot s h
    rw [heq, extAfterLastDot_decomp a b hb, specLastDotExt_decomp a b hb]
  · unfold extAfterLastDot specLastDotExt
    rw [if_neg h, if_neg h]

/-- The shape of every value `path.extname` can return: empty, or a dot
followed by dot-free, slash-free characters. -/
def ExtShape (e : List Char) : Prop :=
  e = [] ∨ ∃ t, e = '.' :: t ∧ '.' ∉ t ∧ '/' ∉ t

theorem extnameChars_shape (s : List Char) : ExtShape (extnameChars s) := by
  unfold extnameChars
  by_cases h2 : lastComponent s = ['.', '.']
  · rw [if_pos h2]
    exact Or.inl rfl
  · rw [if_neg h2]
    by_cases h3 : (extAfterLastDot (lastComponent s)).length = (lastComponent s).length
    · rw [if_pos h3]
      exact Or.inl rfl
    · rw [if_neg h3]
      by_cases hdot : '.' ∈ lastComponent s
      · obtain ⟨a, t, heq, ht⟩ := exists_last_dot _ hdot
        refine Or.inr ⟨t, ?_, ht, ?_⟩
        · rw [heq, extAfterLastDot_decomp a t ht]
        · intro hsl
          have hmem : '/' ∈ lastComponent s := by
            rw [heq]
            exact List.mem_append.mpr (Or.inr (List.mem_cons_of_mem '.' hsl))
          exact lastComponent_mem_ne_slash s '/' hmem rfl
      · rw [show extAfterLastDot (lastComponent s) = [] by
          unfold extAfterLastDot; rw [if_neg hdot]]
        exact Or.inl rfl

theorem extShape_noSlash (e : List Char) (h : ExtShape e) : '/' ∉ e := by
  rcases h with h | ⟨t, heq, _, hsl⟩
  · rw [h]; exact List.not_mem_nil '/'
  · rw [heq]
    intro hm
    rcases List.mem_cons.mp hm with h1 | h1
    · exact absurd h1 (by decide)
    · exact hsl h1

theorem extnameChars_append (i e : List Char) (hne : i ≠ [])
    (hdot : '.' ∉ i) (hsl : '/' ∉ i) (he : ExtShape e) :
    extnameChars (i ++ e) = e := by
  have hslb : '/' ∉ i ++ e := by
    intro hm
    rcases List.mem_append.mp hm with h1 | h1
    · exact hsl h1
    · exact extShape_noSlash e he h1
  have hlast : lastComponent (i ++ e) = i ++ e := lastComponent_noSlash _ hslb
  obtain ⟨c, i2, hi⟩ : ∃ c i2, i = c :: i2 := by
    cases i with
    | nil => exact absurd rfl hne
    | cons c i2 => exact ⟨c, i2, rfl⟩
  have hcdot : c ≠ '.' := fun he2 => hdot (he2 ▸ (hi ▸ List.mem_cons_self c i2))
  have hnotdd : ¬ (i ++ e) = ['.', '.'] := by
    rw [hi]
    intro hcontra
    rw [List.cons_append] at hcontra
    injection hcontra with hc1 _
    exact hcdot hc1
  unfold extnameChars
  rw [hlast, if_neg hnotdd]
  rcases he with hnil | ⟨t, heq, ht, _⟩
  · rw [hnil, List.append_nil]
    rw [show extAfterLastDot i = [] by unfold extAfterLastDot; rw [if_neg hdot]]
    have : (0 : Nat) ≠ i.length := by
      rw [hi]
      simp
    rw [if_neg (by simpa using this)]
  · rw [heq, extAfterLastDot_decomp i t ht]
    have hlen : ('.' :: t).length ≠ (i ++ '.' :: t).length := by
      rw [List.length_append, hi]
      simp
    rw [if_neg hlen]

/-! ### String-level filename lemmas -/

theorem data_ne_nil_of_ne_empty (s : String) (h : s ≠ "") : s.data ≠ [] := by
  intro hd
  exact h (String.ext (hd.trans rfl))

theorem blobName_data (i orig : String) :
    (i ++ extname orig).data = i.data ++ extnameChars orig.data := by
  rw [String.data_append]
  rfl

theorem blobName_noSlash (i orig : String) (h : PlainId i) :
    '/' ∉ (i ++ extname orig).data := by
  rw [blobName_data]
  intro hm
  rcases List.mem_append.mp hm with h1 | h1
  · exact h.2.1 h1
  · exact extShape_noSlash _ (extnameChars_shape orig.data) h1

theorem blobName_not_dot_headed (i orig : String) (h : PlainId i) :
    ∀ (t : List Char), (i ++ extname orig).data ≠ '.' :: t := by
  intro t ht
  rw [blobName_data] at ht
  obtain ⟨hne, _, hdot⟩ := h
  have hidata := data_ne_nil_of_ne_empty i hne
  cases hd : i.data with
  | nil => exact hidata hd
  | cons c r =>
    rw [hd, List.cons_append] at ht
    injection ht with hc _
    exact hdot (hc ▸ (hd ▸ List.mem_cons_self c r))

theorem blobName_plainSeg (i orig : String) (h : PlainId i) :
    PlainSeg (i ++ extname orig) := by
  refine ⟨blobName_noSlash i orig h, ?_, ?_, ?_⟩
  · intro he
    have := congrArg String.data he
    rw [blobName_data] at this
    cases hd : i.data with
    | nil => exact data_ne_nil_of_ne_empty i h.1 hd
    | cons c r => rw [hd] at this; simp at this
  · intro he
    exact blobName_not_dot_headed i orig h [] (congrArg String.data he)
  · intro he
    exact blobName_not_dot_headed i orig h ['.'] (congrArg String.data he)

theorem jsonSeg_data (i : String) :
    (i ++ ".json").data = i.data ++ ['.', 'j', 's', 'o', 'n'] := by
  rw [String.data_append]

theorem jsonSeg_plainSeg (i : String) (h1 : '/' ∉ i.data) :
    PlainSeg (i ++ ".json") := by
  have hlen : (i ++ ".json").data.length = i.data.length + 5 := by
    rw [jsonSeg_data, List.length_append]
    rfl
  refine ⟨?_, ?_, ?_, ?_⟩
  · rw [jsonSeg_data]
    intro hm
    rcases List.mem_append.mp hm with hx | hx
    · exact h1 hx
    · simp at hx
  · intro he
    have h2 := congrArg (fun s : String => s.data.length) he
    simp only [hlen] at h2
    simp at h2
  · intro he
    have h2 := congrArg (fun s : String => s.data.length) he
    simp only [hlen] at h2
    simp at h2
  · intro he
    have h2 := congrArg (fun s : String => s.data.length) he
    simp only [hlen] at h2
    simp at h2

theorem pathParseName_plain (i orig : String) (h : PlainId i) :
    pathParseName (i ++ extname orig) = i := by
  obtain ⟨h1, h2, h3⟩ := h
  have hidata := data_ne_nil_of_ne_empty i h1
  have hlast : lastComponent (i ++ extname orig).data =
      i.data ++ extnameChars orig.data := by
    rw [blobName_data]
    exact lastComponent_noSlash _ (by
      rw [← blobName_data]
      exact blobName_noSlash i orig ⟨h1, h2, h3⟩)
  have hext : extnameChars (i.data ++ extnameChars orig.data) =
      extnameChars orig.data :=
    extnameChars_append i.data _ hidata h3 h2 (extnameChars_shape orig.data)
  unfold pathParseName
  rw [hlast]
  show (⟨List.take ((i.data ++ extnameChars orig.data).length -
      (extnameChars (i.data ++ extnameChars orig.data)).length)
      (i.data ++ extnameChars orig.data)⟩ : String) = i
  rw [hext, List.length_append, Nat.add_sub_cancel, List.take_left]

theorem blobName_startsWith (i orig : String) :
    jsStartsWith (i ++ extname orig) i = true := by
  unfold jsStartsWith
  rw [List.isPrefixOf_iff_prefix, blobName_data]
  exact List.prefix_append i.data _

/-- Distinct dot-free identifiers yield distinct blob filenames, whatever
extensions are appended. -/
theorem plain_ext_inj : ∀ (a : List Char) (b e f : List Char),
    '.' ∉ a → '.' ∉ b → ExtShape e → ExtShape f → a ++ e = b ++ f → a = b := by
  intro a
  induction a with
  | nil =>
    intro b e f _ hb he _ h
    cases b with
    | nil => rfl
    | cons d b2 =>
      rw [List.nil_append, List.cons_append] at h
      rcases he with hnil | ⟨t, heq, _, _⟩
      · rw [hnil] at h
        exact absurd h.symm (List.cons_ne_nil d _)
      · rw [heq] at h
        injection h with hc _
        exact absurd (hc ▸ List.mem_cons_self d b2) hb
  | cons c a2 ih =>
    intro b e f ha hb he hf h
    cases b with
    | nil =>
      rw [List.nil_append, List.cons_append] at h
      rcases hf with hnil | ⟨t, heq, _, _⟩
      · rw [hnil] at h
        exact absurd h (List.cons_ne_nil c _)
      · rw [heq] at h
        injection h with hc _
        exact absurd (hc.symm ▸ List.mem_cons_self c a2) ha
    | cons d b2 =>
      rw [List.cons_append, List.cons_append] at h
      injection h with hc htail
      rw [hc, ih b2 e f (fun hm => ha (List.mem_cons_of_mem c hm))
        (fun hm => hb (List.mem_cons_of_mem d hm)) he hf htail]

/-! ### Operation-sequence lemmas -/

/-- The on-disk path an operation writes to. -/
def opPath (op : Op) : FPath := (opEntry op).1

theorem fileDir_eq : fileDir = ["srv", "file"] := by decide

theorem canvasDir_eq : canvasDir = ["srv", "canvas"] := by decide

theorem applyOp_dirs (fs : FS) (op : Op) : (applyOp fs op).dirs = fs.dirs := by
  cases op with
  | put i orig c =>
    show (writeFile fs (joinPath fileDir (i ++ extname orig)) c).dirs = fs.dirs
    exact writeFile_dirs _ _ _
  | create i now body =>
    show (writeFile fs (joinPath canvasDir (i ++ ".json"))
      (Content.json (newCanvasObj i now body))).dirs = fs.dirs
    exact writeFile_dirs _ _ _

theorem applyOp_files (fs : FS) (op : Op) (h : PlainId (opId op))
    (hfresh : existsFile fs (opPath op) = false) :
    (applyOp fs op).files = fs.files ++ [opEntry op] := by
  cases op with
  | put i orig c =>
    show (writeFile fs (joinPath fileDir (i ++ extname orig)) c).files = _
    rw [joinPath_fileDir _ (blobName_plainSeg i orig h)]
    exact writeFile_fresh_files fs _ c hfresh
  | create i now body =>
    show (writeFile fs (joinPath canvasDir (i ++ ".json"))
      (Content.json (newCanvasObj i now body))).files = _
    rw [joinPath_canvasDir _ (jsonSeg_plainSeg i h.2.1)]
    exact writeFile_fresh_files fs _ _ hfresh

theorem opPath_inj (op1 op2 : Op) (h1 : PlainId (opId op1))
    (h2 : PlainId (opId op2)) (hne : opId op1 ≠ opId op2) :
    opPath op1 ≠ opPath op2 := by
  cases op1 with
  | put i1 o1 c1 =>
    cases op2 with
    | put i2 o2 c2 =>
      intro he
      have hseg : i1 ++ extname o1 = i2 ++ extname o2 := by
        have := List.append_cancel_left (he : fileDir ++ [i1 ++ extname o1] = _)
        simpa using this
      have hdata := congrArg String.data hseg
      rw [blobName_data, blobName_data] at hdata
      exact hne (String.ext (plain_ext_inj i1.data i2.data _ _ h1.2.2 h2.2.2
        (extnameChars_shape o1.data) (extnameChars_shape o2.data) hdata))
    | create i2 now body =>
      intro he
      rw [show opPath (Op.put i1 o1 c1) = fileDir ++ [i1 ++ extname o1] from rfl,
        show opPath (Op.create i2 now body) = canvasDir ++ [i2 ++ ".json"] from rfl,
        fileDir_eq, canvasDir_eq] at he
      simp at he
  | create i1 now1 body1 =>
    cases op2 with
    | put i2 o2 c2 =>
      intro he
      rw [show opPath (Op.create i1 now1 body1) = canvasDir ++ [i1 ++ ".json"] from rfl,
        show opPath (Op.put i2 o2 c2) = fileDir ++ [i2 ++ extname o2] from rfl,
        fileDir_eq, canvasDir_eq] at he
      simp at he
    | create i2 now2 body2 =>
      intro he
      have hseg : i1 ++ ".json" = i2 ++ ".json" := by
        have := List.append_cancel_left (he : canvasDir ++ [i1 ++ ".json"] = _)
        simpa using this
      have hdata := congrArg String.data hseg
      rw [jsonSeg_data, jsonSeg_data] at hdata
      exact hne (String.ext (List.append_cancel_right hdata))

theorem runOps_cons (fs : FS) (op : Op) (rest : List Op) :
    runOps fs (op :: rest) = runOps (applyOp fs op) rest := rfl

theorem runOps_files_aux :
    ∀ (ops : List Op) (fs : FS),
    (∀ op ∈ ops, PlainId (opId op)) →
    ((ops.map opPath).Pairwise (fun a b => a ≠ b)) →
    (∀ op ∈ ops, opPath op ∉ fs.files.map Prod.fst) →
    (runOps fs ops).files = fs.files ++ ops.map opEntry := by
  intro ops
  induction ops with
  | nil =>
    intro fs _ _ _
    simp [runOps]
  | cons op rest ih =>
    intro fs hplain hpw hfresh
    have h0 : PlainId (opId op) := hplain op (List.mem_cons_self op rest)
    have hnotmem := hfresh op (List.mem_cons_self op rest)
    have hex : existsFile fs (opPath op) = false := by
      unfold existsFile
      rw [List.any_eq_false]
      intro q hq
      simp only [decide_eq_true_eq]
      intro hqp
      exact hnotmem (List.mem_map.mpr ⟨q, hq, hqp⟩)
    rw [List.map_cons, List.pairwise_cons] at hpw
    have hfiles1 : (applyOp fs op).files = fs.files ++ [opEntry op] :=
      applyOp_files fs op h0 hex
    rw [runOps_cons, ih (applyOp fs op)
      (fun o ho => hplain o (List.mem_cons_of_mem op ho)) hpw.2
      (fun o ho => by
        rw [hfiles1, List.map_append, List.mem_append]
        intro hmem
        rcases hmem with hmem | hmem
        · exact hfresh o (List.mem_cons_of_mem op ho) hmem
        · simp only [List.map_cons, List.map_nil, List.mem_singleton] at hmem
          exact hpw.1 (opPath o) (List.mem_map_of_mem opPath ho) hmem.symm),
      hfiles1, List.map_cons]
    rw [List.append_assoc]
    rfl

/-! ### Claim C1 -/

/-- C1 (counterexample): the claim fails as stated — when the submitted
document already carries an `id` field, the structure written and returned
keeps the caller's `id`, not the system-generated identifier, because the
`id` field is assigned before the caller's fields are spread. -/
theorem claim_C1_counterexample :
    (postCanvas fs0 "gen1" "2024-05-01T00:00:00.000Z"
      [("id", JVal.str "caller")]).2 =
      Resp.created [("id", JVal.str "caller"),
        ("createAt", JVal.str "2024-05-01T00:00:00.000Z")] ∧
    readFile (postCanvas fs0 "gen1" "2024-05-01T00:00:00.000Z"
        [("id", JVal.str "caller")]).1
        (joinPath canvasDir ("gen1" ++ ".json")) =
      some (Content.json [("id", JVal.str "caller"),
        ("createAt", JVal.str "2024-05-01T00:00:00.000Z")]) ∧
    objGet [("id", JVal.str "caller"),
        ("createAt", JVal.str "2024-05-01T00:00:00.000Z")] "id" ≠
      some (JVal.str "gen1") := by
  refine ⟨by decide, by decide, by decide⟩

/-- C1 (amended): for every document with no caller-supplied `id` field, the
structure written to disk and returned by `POST /canvas` carries the
generated identifier in `id` and the current timestamp in `createAt`; the
system `createAt` always overrides a caller-supplied `createAt`, but a
caller-supplied `id` would override the system identifier. -/
theorem claim_C1_theorem (fs : FS) (cid now : String) (body : Obj)
    (h : objGet body "id" = none) :
    (postCanvas fs cid now body).2 = Resp.created (newCanvasObj cid now body) ∧
    readFile (postCanvas fs cid now body).1 (joinPath canvasDir (cid ++ ".json")) =
      some (Content.json (newCanvasObj cid now body)) ∧
    objGet (newCanvasObj cid now body) "id" = some (JVal.str cid) ∧
    objGet (newCanvasObj cid now body) "createAt" = some (JVal.str now) :=
  ⟨rfl, readFile_writeFile_self fs _ _,
    newCanvasObj_id cid now body h, newCanvasObj_createAt cid now body⟩

/-- C1 (witness): the amended statement at a concrete input, with a
caller-supplied `createAt` that the system timestamp overrides. -/
theorem claim_C1_witness :
    (postCanvas fs0 "gen2" "2024-05-01T00:00:01.000Z"
      [("createAt", JVal.str "old")]).2 =
      Resp.created (newCanvasObj "gen2" "2024-05-01T00:00:01.000Z"
        [("createAt", JVal.str "old")]) ∧
    readFile (postCanvas fs0 "gen2" "2024-05-01T00:00:01.000Z"
        [("createAt", JVal.str "old")]).1
        (joinPath canvasDir ("gen2" ++ ".json")) =
      some (Content.json (newCanvasObj "gen2" "2024-05-01T00:00:01.000Z"
        [("createAt", JVal.str "old")])) ∧
    objGet (newCanvasObj "gen2" "2024-05-01T00:00:01.000Z"
        [("createAt", JVal.str "old")]) "id" = some (JVal.str "gen2") ∧
    objGet (newCanvasObj "gen2" "2024-05-01T00:00:01.000Z"
        [("createAt", JVal.str "old")]) "createAt" =
      some (JVal.str "2024-05-01T00:00:01.000Z") :=
  claim_C1_theorem fs0 "gen2" "2024-05-01T00:00:01.000Z"
    [("createAt", JVal.str "old")] (by decide)

/-! ### Claim C2 -/

/-- C2 (counterexample): the invariant fails as stated — a single create
whose body carries an `id` field stores a document entry at
`gen3.json` whose inner `id` field is the caller's value, not `gen3`. -/
theorem claim_C2_counterexample :
    (runOps fs0 [Op.create "gen3" "2024-05-01T00:00:02.000Z"
        [("id", JVal.str "evil")]]).files =
      [(canvasDir ++ ["gen3" ++ ".json"],
        Content.json [("id", JVal.str "evil"),
          ("createAt", JVal.str "2024-05-01T00:00:02.000Z")])] ∧
    objGet [("id", JVal.str "evil"),
        ("createAt", JVal.str "2024-05-01T00:00:02.000Z")] "id" ≠
      some (JVal.str "gen3") := by
  refine ⟨by decide, by decide⟩

/-- C2 (amended): after any sequence of put and create operations with
pairwise-distinct well-formed generated identifiers, and whose submitted
documents carry no `id` field, every entry sits at its identifier plus the
store suffix (the preserved original extension for blobs, `.json` for
documents), the `id` field inside each document entry equals the filename
stem, and no two entries share a path. -/
theorem claim_C2_theorem (ops : List Op)
    (hplain : ∀ op ∈ ops, PlainId (opId op))
    (hids : (ops.map opId).Pairwise (fun a b => a ≠ b))
    (hbody : ∀ cid now body, Op.create cid now body ∈ ops →
      objGet body "id" = none) :
    (runOps fs0 ops).files = ops.map opEntry ∧
    (((runOps fs0 ops).files.map Prod.fst).Pairwise (fun a b => a ≠ b)) ∧
    (∀ cid now body, Op.create cid now body ∈ ops →
      objGet (newCanvasObj cid now body) "id" = some (JVal.str cid)) := by
  have hpw : (ops.map opPath).Pairwise (fun a b => a ≠ b) := by
    rw [List.pairwise_map] at hids ⊢
    refine List.Pairwise.imp_of_mem ?_ hids
    intro a b ha hb hne
    exact opPath_inj a b (hplain a ha) (hplain b hb) hne
  have hfiles : (runOps fs0 ops).files = ops.map opEntry := by
    have h := runOps_files_aux ops fs0 hplain hpw
      (fun op _ => by
        show opPath op ∉ (fs0.files.map Prod.fst)
        simp [fs0])
    simpa [fs0] using h
  refine ⟨hfiles, ?_,
    fun cid now body hmem => newCanvasObj_id cid now body (hbody cid now body hmem)⟩
  rw [hfiles, List.map_map]
  exact hpw

/-- C2 (witness): the amended invariant at a concrete two-operation run, one
blob upload and one document creation. -/
theorem claim_C2_witness :
    (runOps fs0 [Op.put "ida" "photo.jpg" (Content.raw [1, 2]),
        Op.create "idb" "2024-05-02T00:00:00.000Z"
          [("title", JVal.str "s")]]).files =
      [Op.put "ida" "photo.jpg" (Content.raw [1, 2]),
        Op.create "idb" "2024-05-02T00:00:00.000Z"
          [("title", JVal.str "s")]].map opEntry ∧
    (((runOps fs0 [Op.put "ida" "photo.jpg" (Content.raw [1, 2]),
        Op.create "idb" "2024-05-02T00:00:00.000Z"
          [("title", JVal.str "s")]]).files.map Prod.fst).Pairwise
        (fun a b => a ≠ b)) ∧
    (∀ cid now body, Op.create cid now body ∈
        [Op.put "ida" "photo.jpg" (Content.raw [1, 2]),
          Op.create "idb" "2024-05-02T00:00:00.000Z"
            [("title", JVal.str "s")]] →
      objGet (newCanvasObj cid now body) "id" = some (JVal.str cid)) :=
  claim_C2_theorem _ (by decide) (by decide)
    (fun cid now body hmem => by
      rcases List.mem_cons.mp hmem with h | h
      · simp at h
      · rcases List.mem_cons.mp h with h2 | h2
        · injection h2 with h3 h4 h5
          rw [h5]
          decide
        · simp at h2)

/-! ### Claim C3 -/

/-- The three documents of the C3 scenario, created at strictly increasing
timestamps and listed by `readdirSync` in creation order. -/
def c3o1 : Obj := newCanvasObj "aaa1" "2024-01-01T00:00:00.000Z" [("n", JVal.num 1)]

def c3o2 : Obj := newCanvasObj "bbb2" "2024-01-02T00:00:00.000Z" [("n", JVal.num 2)]

def c3o3 : Obj := newCanvasObj "ccc3" "2024-01-03T00:00:00.000Z" [("n", JVal.num 3)]

/-- The canvas directory after the three creations of the C3 scenario. -/
def c3fs : FS := runOps fs0
  [Op.create "aaa1" "2024-01-01T00:00:00.000Z" [("n", JVal.num 1)],
   Op.create "bbb2" "2024-01-02T00:00:00.000Z" [("n", JVal.num 2)],
   Op.create "ccc3" "2024-01-03T00:00:00.000Z" [("n", JVal.num 3)]]

/-- C3 (code bug): with three documents created at distinct increasing
timestamps, `GET /canvas` returns them in directory-listing (creation)
order, not newest first: the comparator reads `createDate`, a field no
stored document has (they carry `createAt`), so every comparison is `NaN`,
treated as `0`, and the stable sort leaves the listing untouched. -/
theorem claim_C3_code_bug :
    (getCanvas c3fs).2 = Resp.okArr [c3o1, c3o2, c3o3] ∧
    (getCanvas c3fs).2 ≠ Resp.okArr [c3o3, c3o2, c3o1] ∧
    objGet c3o1 "createAt" = some (JVal.str "2024-01-01T00:00:00.000Z") ∧
    objGet c3o3 "createAt" = some (JVal.str "2024-01-03T00:00:00.000Z") ∧
    objGet c3o1 "createDate" = none ∧
    objGet c3o2 "createDate" = none ∧
    objGet c3o3 "createDate" = none := by
  refine ⟨by decide, by decide, by decide, by decide, by decide, by decide, by decide⟩

/-! ### Claim C4 -/

/-- C4 (counterexample): the claim fails as stated — when the submitted
document carries an `id` field, the caller's `id` survives the merge, the
entry is stored under the generated identifier's filename, and `getById`
with the returned `id` answers not-found rather than the created
structure. -/
theorem claim_C4_counterexample :
    (postCanvas fs0 "gen5" "2024-05-03T00:00:01.000Z"
      [("id", JVal.str "zz")]).2 =
      Resp.created [("id", JVal.str "zz"),
        ("createAt", JVal.str "2024-05-03T00:00:01.000Z")] ∧
    getCanvasById (postCanvas fs0 "gen5" "2024-05-03T00:00:01.000Z"
        [("id", JVal.str "zz")]).1 "zz" =
      Resp.notFound "canvas not found" := by
  refine ⟨by decide, by decide⟩

/-- C4 (amended): for every document with unique field names and no `id`
field, the structure returned by create keeps every caller field except a
caller `createAt` (overridden by the system timestamp), adds `id` and
`createAt`, and a subsequent `getById` with the returned `id` yields exactly
the structure create returned. -/
theorem claim_C4_theorem (fs : FS) (cid now : String) (body : Obj)
    (hnd : (body.map Prod.fst).Nodup)
    (hid : objGet body "id" = none) :
    (postCanvas fs cid now body).2 = Resp.created (newCanvasObj cid now body) ∧
    (∀ k v, objGet body k = some v → k ≠ "createAt" →
      objGet (newCanvasObj cid now body) k = some v) ∧
    objGet (newCanvasObj cid now body) "id" = some (JVal.str cid) ∧
    objGet (newCanvasObj cid now body) "createAt" = some (JVal.str now) ∧
    getCanvasById (postCanvas fs cid now body).1 cid =
      Resp.ok (newCanvasObj cid now body) := by
  refine ⟨rfl, fun k v hv hk => newCanvasObj_keeps cid now body k v hnd hk hv,
    newCanvasObj_id cid now body hid, newCanvasObj_createAt cid now body, ?_⟩
  show getCanvasById (writeFile fs (joinPath canvasDir (cid ++ ".json"))
    (Content.json (newCanvasObj cid now body))) cid = _
  simp only [getCanvasById]
  rw [if_pos (existsFile_writeFile_self _ _ _), readFile_writeFile_self]
  rfl

/-- C4 (witness): the amended statement at the concrete scenario of the
specification, `create({"title":"sketch"})`. -/
theorem claim_C4_witness :
    (postCanvas fs0 "gen4" "2024-05-03T00:00:00.000Z"
      [("title", JVal.str "sketch")]).2 =
      Resp.created (newCanvasObj "gen4" "2024-05-03T00:00:00.000Z"
        [("title", JVal.str "sketch")]) ∧
    objGet (newCanvasObj "gen4" "2024-05-03T00:00:00.000Z"
        [("title", JVal.str "sketch")]) "title" = some (JVal.str "sketch") ∧
    objGet (newCanvasObj "gen4" "2024-05-03T00:00:00.000Z"
        [("title", JVal.str "sketch")]) "id" = some (JVal.str "gen4") ∧
    objGet (newCanvasObj "gen4" "2024-05-03T00:00:00.000Z"
        [("title", JVal.str "sketch")]) "createAt" =
      some (JVal.str "2024-05-03T00:00:00.000Z") ∧
    getCanvasById (postCanvas fs0 "gen4" "2024-05-03T00:00:00.000Z"
        [("title", JVal.str "sketch")]).1 "gen4" =
      Resp.ok (newCanvasObj "gen4" "2024-05-03T00:00:00.000Z"
        [("title", JVal.str "sketch")]) := by
  have h := claim_C4_theorem fs0 "gen4" "2024-05-03T00:00:00.000Z"
    [("title", JVal.str "sketch")] (by decide) (by decide)
  exact ⟨h.1, h.2.1 "title" (JVal.str "sketch") (by decide) (by decide),
    h.2.2.1, h.2.2.2.1, h.2.2.2.2⟩

/-! ### Claim C5 -/

theorem mem_readdir_of_existsFile (fs : FS) (d : FPath) (n : String)
    (h : existsFile fs (d ++ [n]) = true) : n ∈ readdirNames fs d := by
  unfold existsFile at h
  obtain ⟨q, hq, hq1⟩ := List.any_eq_true.mp h
  simp only [decide_eq_true_eq] at hq1
  unfold readdirNames
  rw [List.mem_filterMap]
  refine ⟨q, hq, ?_⟩
  rw [hq1]
  simp [List.dropLast_concat, List.getLast?_concat]

theorem writeFile_fresh_eq (fs : FS) (p : FPath) (c : Content)
    (h : existsFile fs p = false) :
    writeFile fs p c = FS.mk fs.dirs (fs.files ++ [(p, c)]) := by
  unfold existsFile at h
  unfold writeFile
  simp [h]

/-- C5: uploading any content under any original filename with a fresh
well-formed identifier, then fetching the identifier the upload response
returned, yields exactly the uploaded content (blob store round-trip).
Freshness models `uuidv4()`: no already-listed blob filename starts with the
new identifier. -/
theorem claim_C5_theorem (fs : FS) (freshId orig : String) (content : Content)
    (hid : PlainId freshId)
    (hdir : dirExists fs fileDir = true)
    (hfresh : ∀ name ∈ readdirNames fs fileDir,
      jsStartsWith name freshId = false) :
    (uploadFile fs freshId orig content).2 =
      Resp.ok [("fileId", JVal.str freshId),
        ("message", JVal.str "upload ok")] ∧
    getFile (uploadFile fs freshId orig content).1 freshId =
      Resp.file content := by
  have hname := pathParseName_plain freshId orig hid
  constructor
  · simp only [uploadFile]
    rw [hname]
  · have hseg := blobName_plainSeg freshId orig hid
    have hjoin := joinPath_fileDir _ hseg
    have hex : existsFile fs (joinPath fileDir (freshId ++ extname orig)) = false := by
      cases hcase : existsFile fs (joinPath fileDir (freshId ++ extname orig)) with
      | false => rfl
      | true =>
        rw [hjoin] at hcase
        have hmem := mem_readdir_of_existsFile fs fileDir _ hcase
        have := hfresh _ hmem
        rw [blobName_startsWith] at this
        exact absurd this (by simp)
    show getFile (writeFile fs (joinPath fileDir (freshId ++ extname orig))
      content) freshId = Resp.file content
    have hw := writeFile_fresh_eq fs _ content hex
    have hdir1 : dirExists (writeFile fs
        (joinPath fileDir (freshId ++ extname orig)) content) fileDir = true := by
      unfold dirExists
      rw [writeFile_dirs]
      exact hdir
    have hreaddir : readdirNames (writeFile fs
        (joinPath fileDir (freshId ++ extname orig)) content) fileDir =
        readdirNames fs fileDir ++ [freshId ++ extname orig] := by
      rw [hw, hjoin]
      exact readdirNames_append_file fs fileDir _ content
    unfold getFile
    rw [if_pos hdir1, hreaddir, List.find?_append]
    rw [List.find?_eq_none.mpr (fun x hx => by
      rw [hfresh x hx]
      simp)]
    have hfind : List.find? (fun f => jsStartsWith f freshId)
        [freshId ++ extname orig] = some (freshId ++ extname orig) := by
      simp [List.find?, blobName_startsWith freshId orig]
    rw [Option.none_or, hfind]
    show (match readFile (writeFile fs
        (joinPath fileDir (freshId ++ extname orig)) content)
        (joinPath fileDir (freshId ++ extname orig)) with
      | some c => Resp.file c
      | none => Resp.serverError "read failed") = Resp.file content
    rw [readFile_writeFile_self]

/-- C5 (witness): the round trip at the concrete scenario of the
specification — a 3-byte `photo.jpg` upload. -/
theorem claim_C5_witness :
    (uploadFile fs0 "idc" "photo.jpg" (Content.raw [1, 2, 3])).2 =
      Resp.ok [("fileId", JVal.str "idc"),
        ("message", JVal.str "upload ok")] ∧
    getFile (uploadFile fs0 "idc" "photo.jpg" (Content.raw [1, 2, 3])).1 "idc" =
      Resp.file (Content.raw [1, 2, 3]) :=
  claim_C5_theorem fs0 "idc" "photo.jpg" (Content.raw [1, 2, 3])
    (by decide) (by decide) (by decide)

/-! ### Claim C6 -/

/-- C6 (counterexample): the claim fails as stated — for the dotfile name
`.bashrc`, the substring from the last dot is the whole name, but Node
`path.extname` yields the empty extension, so the stored entry is
extension-less rather than carrying `.bashrc`. -/
theorem claim_C6_counterexample :
    (uploadFile fs0 "idd" ".bashrc" (Content.raw [7])).1.files =
      [(fileDir ++ ["idd"], Content.raw [7])] ∧
    specLastDotExt (String.data ".bashrc") = String.data ".bashrc" ∧
    extname ".bashrc" = "" ∧
    ("idd" : String) ≠ "idd" ++ ".bashrc" := by
  refine ⟨by decide, by decide, by decide, by decide⟩

/-- C6 (amended): for every slash-free original filename other than `..`,
the stored blob extension is the substring from the name's last dot
(inclusive) — empty when the name has no dot — except when that substring is
the entire name (dotfiles), in which case the extension is empty. -/
theorem claim_C6_theorem (fs : FS) (fid name : String) (c : Content)
    (h1 : '/' ∉ name.data) (h2 : name.data ≠ ['.', '.']) :
    (uploadFile fs fid name c).1 =
      writeFile fs (joinPath fileDir (fid ++ extname name)) c ∧
    extname name = (if (specLastDotExt name.data).length = name.data.length
      then "" else ⟨specLastDotExt name.data⟩) := by
  constructor
  · rfl
  · simp only [extname, extnameChars]
    rw [lastComponent_noSlash _ h1, if_neg h2, extAfterLastDot_eq_spec]
    by_cases hc : (specLastDotExt name.data).length = name.data.length
    · rw [if_pos hc, if_pos hc]
    · rw [if_neg hc, if_neg hc]

/-- C6 (witness): the amended rule at the concrete scenario of the
specification, the filename `photo.jpg`. -/
theorem claim_C6_witness :
    (uploadFile fs0 "ide" "photo.jpg" (Content.raw [1])).1 =
      writeFile fs0 (joinPath fileDir ("ide" ++ extname "photo.jpg"))
        (Content.raw [1]) ∧
    extname "photo.jpg" =
      (if (specLastDotExt (String.data "photo.jpg")).length =
          (String.data "photo.jpg").length
        then "" else ⟨specLastDotExt (String.data "photo.jpg")⟩) :=
  claim_C6_theorem fs0 "ide" "photo.jpg" (Content.raw [1])
    (by decide) (by decide)

/-! ### Claim C7 -/

/-- The C7 counterexample state: one blob `u1.jpg`, an empty canvas
directory, and a malformed non-document file `/srv/hack.json` outside the
canvas directory. -/
def c7fs : FS := FS.mk [fileDir, canvasDir]
  [(fileDir ++ ["u1.jpg"], Content.raw [9]),
   (["srv", "hack.json"], Content.text "oops")]

/-- C7 (counterexample): the claim fails as stated, on two counts, with both
directories present and readable and no created identifier involved — the
never-created identifier `u` prefix-matches the stored blob `u1.jpg` and is
answered 200 with that blob rather than 404, and the never-created
identifier `../hack` makes `getById` read and fail to parse a file outside
the canvas directory, answering 500 rather than 404. -/
theorem claim_C7_counterexample :
    dirExists c7fs fileDir = true ∧
    dirExists c7fs canvasDir = true ∧
    readdirNames c7fs canvasDir = [] ∧
    getFile c7fs "u" = Resp.file (Content.raw [9]) ∧
    getCanvasById c7fs "../hack" = Resp.serverError "Unexpected token" := by
  refine ⟨by decide, by decide, by decide, by decide, by decide⟩

/-- C7 (amended): with the store directories readable, a lookup of a
never-created identifier answers 404 and never 500, provided the identifier
is no prefix of any stored blob filename (for `GET /file/:fileId`) and
contains no path separator (for `GET /canvas/:id`). -/
theorem claim_C7_theorem (fs : FS) (fileId id : String)
    (hdirF : dirExists fs fileDir = true)
    (hfresh : ∀ name ∈ readdirNames fs fileDir,
      jsStartsWith name fileId = false)
    (hid : '/' ∉ id.data)
    (hnone : existsFile fs (canvasDir ++ [id ++ ".json"]) = false) :
    getFile fs fileId = Resp.notFound "file not found" ∧
    getCanvasById fs id = Resp.notFound "canvas not found" := by
  constructor
  · unfold getFile
    rw [if_pos hdirF]
    rw [List.find?_eq_none.mpr (fun x hx => by
      rw [hfresh x hx]
      simp)]
  · simp only [getCanvasById]
    rw [joinPath_canvasDir _ (jsonSeg_plainSeg id hid),
      if_neg (by rw [hnone]; simp)]

/-- C7 (witness): the amended statement on the freshly started, empty
service state. -/
theorem claim_C7_witness :
    getFile fs0 "nope" = Resp.notFound "file not found" ∧
    getCanvasById fs0 "nope" = Resp.notFound "canvas not found" :=
  claim_C7_theorem fs0 "nope" "nope" (by decide) (by decide) (by decide)
    (by decide)

/-! ### Claim C8 -/

theorem mapParseAll_error_of_mem (fs : FS) :
    ∀ (ns : List String) (n : String), n ∈ ns →
    (∀ o, readAndParse fs n ≠ Except.ok o) →
    ∃ e, mapParseAll fs ns = Except.error e := by
  intro ns
  induction ns with
  | nil =>
    intro n h
    cases h
  | cons m rest ih =>
    intro n hmem hbad
    rcases List.mem_cons.mp hmem with he | he
    · cases hr : readAndParse fs m with
      | error e =>
        refine ⟨e, ?_⟩
        unfold mapParseAll
        rw [hr]
      | ok o => exact absurd (he ▸ hr) (hbad o)
    · cases hr : readAndParse fs m with
      | error e =>
        refine ⟨e, ?_⟩
        unfold mapParseAll
        rw [hr]
      | ok o =>
        obtain ⟨e, hrec⟩ := ih n he hbad
        refine ⟨e, ?_⟩
        unfold mapParseAll
        rw [hr, hrec]

/-- C8: when the canvas directory is readable but some listed `.json` entry
fails to read or parse, `GET /canvas` answers a storage error carrying no
documents at all — one malformed entry aborts the whole listing — and the
directory state is left unchanged. -/
theorem claim_C8_theorem (fs : FS) (name : String)
    (hdir : dirExists fs canvasDir = true)
    (hmem : name ∈ (readdirNames fs canvasDir).filter
      (fun f => jsEndsWith f ".json"))
    (hbad : ∀ o, readAndParse fs name ≠ Except.ok o) :
    ∃ e, (getCanvas fs).2 = Resp.serverError e ∧ (getCanvas fs).1 = fs := by
  obtain ⟨e, he⟩ := mapParseAll_error_of_mem fs _ name hmem hbad
  refine ⟨e, ?_, ?_⟩
  · unfold getCanvas
    rw [if_pos hdir, he]
  · unfold getCanvas
    rw [if_pos hdir, he]

/-- The C8 witness state: one well-formed and one malformed entry in the
canvas directory. -/
def c8fs : FS := FS.mk [fileDir, canvasDir]
  [(canvasDir ++ ["good.json"], Content.json [("a", JVal.num 1)]),
   (canvasDir ++ ["bad.json"], Content.text "not json")]

/-- C8 (witness): the abort at a concrete state in which every other entry
parses. -/
theorem claim_C8_witness :
    ∃ e, (getCanvas c8fs).2 = Resp.serverError e ∧ (getCanvas c8fs).1 = c8fs :=
  claim_C8_theorem c8fs "bad.json" (by decide) (by decide)
    (fun o h => Except.noConfusion
      (h : Except.error "Unexpected token" = Except.ok o))

/-! ### Claim C9 -/

/-- C9: `GET /canvas` on a missing canvas directory answers the empty
listing and creates the directory (lazy heal); on an existing but empty
directory it answers the empty listing. -/
theorem claim_C9_theorem (fs : FS) :
    (dirExists fs canvasDir = false →
      (getCanvas fs).2 = Resp.okArr [] ∧
      dirExists (getCanvas fs).1 canvasDir = true) ∧
    (dirExists fs canvasDir = true →
      readdirNames fs canvasDir = [] →
      (getCanvas fs).2 = Resp.okArr []) := by
  constructor
  · intro h
    have hcond : ¬ (dirExists fs canvasDir = true) := by
      rw [h]
      simp
    constructor
    · unfold getCanvas
      rw [if_neg hcond]
    · unfold getCanvas
      rw [if_neg hcond]
      show dirExists (mkdir fs canvasDir) canvasDir = true
      unfold dirExists mkdir
      simp
  · intro h1 h2
    unfold getCanvas
    rw [if_pos h1, h2]
    rfl

/-- The C9 witness state: a freshly started service whose canvas directory
is missing. -/
def c9fs : FS := FS.mk [fileDir] []

/-- C9 (witness): both branches at concrete states — the missing directory
is healed and answered with `[]`, and the empty existing directory of the
startup state is answered with `[]`. -/
theorem claim_C9_witness :
    ((getCanvas c9fs).2 = Resp.okArr [] ∧
      dirExists (getCanvas c9fs).1 canvasDir = true) ∧
    (getCanvas fs0).2 = Resp.okArr [] :=
  ⟨(claim_C9_theorem c9fs).1 (by decide),
    (claim_C9_theorem fs0).2 (by decide) (by decide)⟩

/-! ### Claim C10 -/

/-- The C10 state: an empty canvas directory, and a parseable file
`/srv/secret.json` outside it. -/
def c10fs : FS := FS.mk [fileDir, canvasDir]
  [(["srv", "secret.json"], Content.json [("x", JVal.num 1)])]

/-- C10: `GET /canvas/:id` builds its lookup path from the caller-supplied
identifier with no validation, so the identifier `../secret` resolves
outside the canvas directory and the handler returns the contents of a file
that is no document entry (the canvas directory is empty) instead of a
not-found signal. -/
theorem claim_C10_theorem :
    joinPath canvasDir ("../secret" ++ ".json") = ["srv", "secret.json"] ∧
    (["srv", "secret.json"] : FPath).dropLast ≠ canvasDir ∧
    readdirNames c10fs canvasDir = [] ∧
    getCanvasById c10fs "../secret" = Resp.ok [("x", JVal.num 1)] := by
  refine ⟨by decide, by decide, by decide, by decide⟩
